import Mathlib

/-!
Verification of the quiz-session orchestration engine of this repository
(`src/utils/telegramService.ts` and its sibling evolutions).

The TypeScript classes are shallowly embedded as pure Lean functions:
JavaScript `Map` objects become association lists with a single entry per
key (`mapSet` removes any previous entry for the key before inserting),
asynchronous event processing becomes explicit folds over the list of
events delivered while the loop ran, randomness (`Math.random`) becomes an
explicit stream `js : Nat → Nat` of drawn values, and wall-clock time
becomes an explicit `Nat` parameter (milliseconds).  Fallible operations
return `Except String`.
-/

namespace Quiz

/-! ### Association-list model of JavaScript `Map` -/

/-- Lookup in an association list: the value of the first entry with the
given key, matching `Map.get` (a JS `Map` has at most one entry per key). -/
def mapFind {α β : Type} [DecidableEq α] : List (α × β) → α → Option β
  | [], _ => none
  | (k, v) :: rest, k₀ => if k₀ = k then some v else mapFind rest k₀

/-- `Map.set`: replace any existing entry for the key and bind it to `v`. -/
def mapSet {α β : Type} [DecidableEq α] (m : List (α × β)) (k : α) (v : β) :
    List (α × β) :=
  (k, v) :: m.filter (fun p => decide (p.1 ≠ k))

theorem mapFind_mapSet_self {α β : Type} [DecidableEq α]
    (m : List (α × β)) (k : α) (v : β) : mapFind (mapSet m k v) k = some v := by
  simp [mapFind, mapSet]

theorem mapFind_filter_ne {α β : Type} [DecidableEq α]
    (m : List (α × β)) (k k₀ : α) (h : k₀ ≠ k) :
    mapFind (m.filter (fun p => decide (p.1 ≠ k))) k₀ = mapFind m k₀ := by
  induction m with
  | nil => rfl
  | cons p rest ih =>
    cases p with
    | mk a b =>
      by_cases hak : a = k
      · subst hak
        rw [List.filter_cons_of_neg (by simp)]
        rw [ih]
        simp [mapFind, h]
      · rw [List.filter_cons_of_pos (by simp [hak])]
        by_cases hk : k₀ = a
        · simp only [mapFind, if_pos hk]
        · simp only [mapFind, if_neg hk]
          exact ih

theorem mapFind_mapSet_ne {α β : Type} [DecidableEq α]
    (m : List (α × β)) (k k₀ : α) (v : β) (h : k₀ ≠ k) :
    mapFind (mapSet m k v) k₀ = mapFind m k₀ := by
  simp only [mapSet, mapFind, if_neg h]
  exact mapFind_filter_ne m k k₀ h

theorem mapFind_isSome_of_mem {α β : Type} [DecidableEq α]
    {m : List (α × β)} {k : α} {v : β} (h : (k, v) ∈ m) :
    (mapFind m k).isSome := by
  induction m with
  | nil => cases h
  | cons p rest ih =>
    cases p with
    | mk a b =>
      by_cases hk : k = a
      · simp [mapFind, hk]
      · rcases List.mem_cons.mp h with h' | h'
        · exact absurd (congrArg Prod.fst h') hk
        · simp [mapFind, hk, ih h']

theorem mem_of_mapFind_eq_some {α β : Type} [DecidableEq α]
    {m : List (α × β)} {k : α} {v : β} (h : mapFind m k = some v) :
    (k, v) ∈ m := by
  induction m with
  | nil => simp [mapFind] at h
  | cons p rest ih =>
    cases p with
    | mk a b =>
      by_cases hk : k = a
      · subst hk
        simp [mapFind] at h
        simp [h]
      · simp [mapFind, hk] at h
        exact List.mem_cons_of_mem _ (ih h)

theorem mem_mapSet {α β : Type} [DecidableEq α]
    {m : List (α × β)} {k : α} {v : β} {p : α × β} (h : p ∈ mapSet m k v) :
    p = (k, v) ∨ p ∈ m := by
  rcases List.mem_cons.mp h with h | h
  · exact Or.inl h
  · exact Or.inr (List.mem_of_mem_filter h)

/-! ### Data model of `PollResultsCollector` (`telegramService.ts`, lines 32-134)

An incoming `getUpdates` element with a `poll_answer` payload carries
`{user.id, poll_id, option_ids}`; `user.id.toString()` is modelled by
storing the user id directly as a string. -/

/-- The `poll_answer` payload of a Telegram update. -/
structure PollAnswer where
  userId : String
  poll_id : String
  option_ids : List Nat
deriving DecidableEq

/-- One element of the array returned by `getUpdates`. -/
structure Update where
  update_id : Nat
  poll_answer : Option PollAnswer
deriving DecidableEq

/-- `PollInfo`: dispatch record stored by `addPoll`. -/
structure PollInfo where
  pollId : String
  questionIndex : Nat
  correctOptionId : Nat
  rowNumber : Nat
deriving DecidableEq

/-- `this.results`: userId -> (questionIndex -> isCorrect). -/
abbrev ResultsMap := List (String × List (Nat × Bool))

/-- The entry recorded for `(userId, questionIndex)`, if any. -/
def valueAt (r : ResultsMap) (userId : String) (questionIndex : Nat) :
    Option Bool :=
  (mapFind r userId).bind (fun userResults => mapFind userResults questionIndex)

/-- The first loop of `collectPollResults` (lines 66-68): every listed user
gets a fresh empty results map, on top of whatever the collector held. -/
def initResults (results : ResultsMap) (userIds : List String) : ResultsMap :=
  userIds.foldl (fun r userId => mapSet r userId []) results

/-- Processing of one `getUpdates` element by the body of the
`collectPollResults` polling loop (lines 73-101): an answer whose poll id
was registered via `addPoll` and whose user has a results map records
`option_ids.includes(correctOptionId)` — unconditionally, overwriting any
previous record for the same question index.  The Excel cross-validation
block (lines 83-96) only logs a warning and messages the admin; it does not
change the recorded results, so it does not appear in the state model, and
neither does the read-offset bookkeeping. -/
def processUpdate (polls : List (String × PollInfo)) (r : ResultsMap)
    (update : Update) : ResultsMap :=
  match update.poll_answer with
  | none => r
  | some pa =>
    match mapFind polls pa.poll_id, mapFind r pa.userId with
    | some pollInfo, some userResults =>
        mapSet r pa.userId
          (mapSet userResults pollInfo.questionIndex
            (pa.option_ids.contains pollInfo.correctOptionId))
    | some _, none => r
    | none, _ => r

/-- The timeout-resolution loop of `collectPollResults` (lines 123-130) for
one user: every question index below `pollCount` that has no record yet is
resolved as `false`. -/
def fillUser (pollCount : Nat) (userResults : List (Nat × Bool)) :
    List (Nat × Bool) :=
  (List.range pollCount).foldl
    (fun ur i => if (mapFind ur i).isSome then ur else mapSet ur i false) userResults

/-- Timeout resolution over all users (lines 123-130). -/
def fillUnanswered (pollCount : Nat) (userIds : List String)
    (r : ResultsMap) : ResultsMap :=
  userIds.foldl
    (fun r userId =>
      match mapFind r userId with
      | some userResults => mapSet r userId (fillUser pollCount userResults)
      | none => r) r

/-- `collectPollResults(userIds, pollCount, timeoutSeconds, questions)`
as a function of the answer events actually delivered before the timeout:
initialise an empty map per user, fold the polling-loop body over the
delivered updates, then resolve unanswered expectations as incorrect. -/
def collectPollResults (polls : List (String × PollInfo))
    (results : ResultsMap) (userIds : List String) (pollCount : Nat)
    (updates : List Update) : ResultsMap :=
  fillUnanswered pollCount userIds
    (updates.foldl (processUpdate polls) (initResults results userIds))

/-- An update is an answer event matching the expectation
`(userId, questionIndex)`: it carries a `poll_answer` from that user whose
poll id was registered for that question index. -/
def matchesEvent (polls : List (String × PollInfo)) (update : Update)
    (userId : String) (questionIndex : Nat) : Prop :=
  ∃ pa, update.poll_answer = some pa ∧ pa.userId = userId ∧
    ∃ pollInfo, mapFind polls pa.poll_id = some pollInfo ∧
      pollInfo.questionIndex = questionIndex

/-! ### The per-user expectation variant (`src/unnamed/part_000`, lines 70-158) -/

/-- `UserPollState`: the expectation record of `waitForSinglePollResult`. -/
structure UserPollState where
  expectedPollId : String
  questionIndex : Nat
  correctOptionId : Nat
  isAnswered : Bool
deriving DecidableEq

/-- Processing of one `getUpdates` element by the body of
`waitForSinglePollResult` (part_000, lines 123-144): an answer is recorded
only when the user has an expectation for exactly this poll id that is not
yet answered; the expectation is then marked answered, so a duplicate or
late delivery leaves both the states and the results unchanged. -/
def processUpdateW (states : List (String × UserPollState))
    (results : ResultsMap) (update : Update) :
    List (String × UserPollState) × ResultsMap :=
  match update.poll_answer with
  | none => (states, results)
  | some pa =>
    match mapFind states pa.userId with
    | none => (states, results)
    | some state =>
      if state.expectedPollId = pa.poll_id ∧ state.isAnswered = false then
        let isCorrect := pa.option_ids.contains state.correctOptionId
        (mapSet states pa.userId { state with isAnswered := true },
         match mapFind results pa.userId with
         | some userResults =>
             mapSet results pa.userId
               (mapSet userResults state.questionIndex isCorrect)
         | none => results)
      else (states, results)

/-! ### `TelegramAPI.sendPoll` (`telegramService.ts`, lines 179-237)

JavaScript string lengths (UTF-16 units) are modelled by Lean string
lengths (`strLen`); `substring(0, n)` becomes `takeStr`, `.trim()` becomes
`trimStr`, both acting on the character list.  The network is modelled by the chronological trace of
outbound calls the method makes; the poll id of a successful dispatch comes
from the platform response and lies outside the pure model, so success is
recorded as `.ok` of the transmitted payload fields.  Apostrophes in the
original Uzbek message texts are elided. -/

/-- JavaScript `string.length` (UTF-16 units), modelled as the character
count of the Lean string. -/
def strLen (s : String) : Nat :=
  s.data.length

/-- JavaScript `substring(0, n)`. -/
def takeStr (s : String) (n : Nat) : String :=
  String.mk (s.data.take n)

/-- JavaScript `trim()`: strip leading and trailing whitespace. -/
def trimStr (s : String) : String :=
  String.mk (((s.data.dropWhile Char.isWhitespace).reverse.dropWhile
    Char.isWhitespace).reverse)

/-- One outbound network call made by the API client. -/
inductive NetCall where
  /-- A `sendMessage` request. -/
  | message (chatId text : String)
  /-- The `sendPoll` request itself. -/
  | pollRequest (chatId question : String) (options : List String)
      (correct_option_id : Int) (open_period : Nat)
deriving DecidableEq

/-- `sanitizePollQuestion` (line 318): truncate to 255 units, then trim. -/
def sanitizePollQuestion (question : String) : String :=
  trimStr (takeStr question 255)

/-- `sanitizePollOptions` (lines 322-327): truncate each option to 100
units, trim, and drop entries that became empty (the `null`/`undefined`
pre-filter is vacuous for a list of strings). -/
def sanitizePollOptions (options : List String) : List String :=
  (options.map (fun option => trimStr (takeStr option 100))).filter
    (fun option => 0 < strLen option)

/-- The supplementary message sent for a question longer than 255 units
(lines 190-196). -/
def longQuestionMessage (question : String) : String :=
  "<b>Savol: " ++ question ++ "</b>\n\nJavob variantlarini quyidagi pollda tanlang."

/-- The supplementary message built for over-long options (lines 211-219):
each sanitized option prefixed with a letter label. -/
def longOptionsMessage (sanitizedOptions : List String) : String :=
  "<b>Javob variantlari:</b>\n" ++
    String.intercalate "\n"
      (sanitizedOptions.mapIdx
        (fun idx opt => String.mk [Char.ofNat (65 + idx)] ++ ". " ++ opt))

/-- `sendPoll(chatId, question, options, correctOptionId, openPeriod,
rowNumber)`: returns the chronological trace of network calls together with
the outcome.  Execution order follows the source: the long-question
message (if any) is sent first, then the options are sanitized and
validated, then the (dead, see `sanitizePollOptions`) long-options message
check runs, and finally the poll request is dispatched with the open
period clamped to `[5, 200]`. -/
def sendPoll (chatId question : String) (options : List String)
    (correctOptionId : Int) (openPeriod : Nat) :
    List NetCall × Except String Unit :=
  let preCalls : List NetCall :=
    if 255 < strLen question then
      [NetCall.message chatId (longQuestionMessage question)]
    else []
  let sanitizedQuestion := sanitizePollQuestion question
  let sanitizedOptions := sanitizePollOptions options
  if sanitizedOptions.length < 2 ∨ 10 < sanitizedOptions.length then
    (preCalls, .error "Poll variantlari soni 2-10 orasida bolishi kerak")
  else if correctOptionId < 0 ∨ (sanitizedOptions.length : Int) ≤ correctOptionId then
    (preCalls, .error "Togri javob indeksi notogri")
  else
    let optionCalls : List NetCall :=
      if sanitizedOptions.any (fun opt => 100 < strLen opt) then
        [NetCall.message chatId (longOptionsMessage sanitizedOptions)]
      else []
    (preCalls ++ optionCalls ++
      [NetCall.pollRequest chatId sanitizedQuestion sanitizedOptions
        correctOptionId (min (max openPeriod 5) 200)],
     .ok ())

/-! ### `TelegramAPI.makeRequestWithRetry` (lines 279-312)

Each attempt against the platform is an oracle value: a 2xx response with
data, an HTTP 429 with an optional `retry_after`, another non-2xx status
with an optional description, or a thrown transport error.  The model
returns the outcome, the number of attempts consumed, and the list of
back-off sleeps (in seconds) in order. -/

/-- What the platform does on one attempt. -/
inductive AttemptResult where
  /-- 2xx response carrying `data`. -/
  | success (data : String)
  /-- HTTP 429 with the optional `parameters.retry_after`. -/
  | tooManyRequests (retry_after : Option Nat)
  /-- Another non-2xx status with the optional `description`. -/
  | httpFailure (status : Nat) (description : Option String)
  /-- `fetch`/`json` threw. -/
  | transportError (message : String)

/-- `maxRetries` field of `TelegramAPI`. -/
def maxRetries : Nat := 3

/-- Result of the retry loop: outcome, attempts consumed, sleeps made. -/
structure RetryTrace where
  result : Except String String
  attempts : Nat
  sleeps : List Nat

/-- The error message recorded by the `catch` block for one attempt
(`data.description || HTTP <status>` for a non-429 failure, the thrown
message for a transport error); a 429 records nothing. -/
def caughtMessage : AttemptResult → Option String
  | .httpFailure status description => some (description.getD ("HTTP " ++ toString status))
  | .transportError message => some message
  | _ => none

/-- The `for` loop of `makeRequestWithRetry`, one step per attempt.  On
429 the code sleeps `retry_after` (or `2^attempt`) seconds and `continue`s
without touching `lastError`; on any other failure the thrown error is
caught, recorded in `lastError`, and the code sleeps `2^attempt` seconds
unless this was the final attempt.  `fuel` counts the remaining loop
iterations (initially `maxRetries`). -/
def retryLoop (outcomes : Nat → AttemptResult) :
    Nat → Nat → Option String → RetryTrace
  | 0, _, lastError =>
    ⟨.error (lastError.getD "Sorov muvaffaqiyatsiz"), 0, []⟩
  | fuel + 1, attempt, lastError =>
    match outcomes attempt with
    | .success data => ⟨.ok data, 1, []⟩
    | .tooManyRequests retry_after =>
      let sleep := retry_after.getD (2 ^ attempt)
      let rest := retryLoop outcomes fuel (attempt + 1) lastError
      ⟨rest.result, rest.attempts + 1, sleep :: rest.sleeps⟩
    | .httpFailure status description =>
      let msg := description.getD ("HTTP " ++ toString status)
      let sleeps := if attempt < maxRetries then [2 ^ attempt] else []
      let rest := retryLoop outcomes fuel (attempt + 1) (some msg)
      ⟨rest.result, rest.attempts + 1, sleeps ++ rest.sleeps⟩
    | .transportError message =>
      let sleeps := if attempt < maxRetries then [2 ^ attempt] else []
      let rest := retryLoop outcomes fuel (attempt + 1) (some message)
      ⟨rest.result, rest.attempts + 1, sleeps ++ rest.sleeps⟩

/-- `makeRequestWithRetry(method, payload)` as a function of the per-attempt
oracle: run up to `maxRetries` attempts starting at attempt 1 with no
recorded error. -/
def makeRequestWithRetry (outcomes : Nat → AttemptResult) : RetryTrace :=
  retryLoop outcomes maxRetries 1 none

/-- The last observed caught error in the attempt window
`[attempt, attempt + fuel)`: the `caughtMessage` of the highest-numbered
attempt that recorded one (scanning from the top), `none` when no attempt
in the window recorded an error (e.g. when every attempt was answered
429).  This is an independent characterisation of the final value of the
loop's `lastError` variable. -/
def lastCaughtIn (outcomes : Nat → AttemptResult) (attempt : Nat) :
    Nat → Option String
  | 0 => none
  | fuel + 1 =>
    match caughtMessage (outcomes (attempt + fuel)) with
    | some m => some m
    | none => lastCaughtIn outcomes attempt fuel

/-! ### `shuffleArray` and `shuffleWithCorrectIndex` (lines 457-464, 509-525)

`Math.random()` draws are modelled by a stream `js : Nat → Nat`; the draw
for loop index `i` is reduced mod `i + 1`, matching
`Math.floor(Math.random() * (i + 1)) ∈ [0, i]`. -/

/-- Swap the elements at positions `i` and `j` (no-op when out of range),
the effect of `[array[i], array[j]] = [array[j], array[i]]`. -/
def swapL {α : Type} (l : List α) (i j : Nat) : List α :=
  match l[i]?, l[j]? with
  | some x, some y => (l.set i y).set j x
  | some _, none => l
  | none, _ => l

/-- The Fisher-Yates loop of `shuffleArray`: `n` is the current loop index
`i`, counting down to 1. -/
def fisherYates {α : Type} (js : Nat → Nat) : Nat → List α → List α
  | 0, arr => arr
  | i + 1, arr => fisherYates js i (swapL arr (i + 1) (js (i + 1) % (i + 2)))

/-- `shuffleArray(arr)`: copy, then run the downward Fisher-Yates loop from
`arr.length - 1`. -/
def shuffleArray {α : Type} (js : Nat → Nat) (arr : List α) : List α :=
  fisherYates js (arr.length - 1) arr

/-- The option cleaning performed by `shuffleWithCorrectIndex`
(lines 513-515): trim every option and drop the ones that became empty. -/
def cleanOptionsOf (options : List String) : List String :=
  (options.map (fun opt => trimStr opt)).filter (fun opt => 0 < strLen opt)

/-- `shuffleWithCorrectIndex(options, correctAnswer)`: clean the options,
require at least 2 of them and that they contain the trimmed correct
answer, then shuffle and locate the correct answer by `indexOf`. -/
def shuffleWithCorrectIndex (js : Nat → Nat) (options : List String)
    (correctAnswer : String) : Except String (List String × Nat) :=
  let cleanOptions := cleanOptionsOf options
  let cleanCorrectAnswer := trimStr correctAnswer
  if cleanOptions.length < 2 then
    .error "Kamida 2 ta javob varianti kerak"
  else if cleanCorrectAnswer ∈ cleanOptions then
    let shuffled := shuffleArray js cleanOptions
    .ok (shuffled, shuffled.indexOf cleanCorrectAnswer)
  else
    .error "Togri javob variantlar orasida topilmadi"

/-! ### `MultiUserQuizManager` (lines 330-454)

`crypto.randomUUID()` and `Date.now()` are modelled as explicit
parameters.  `Map` fields become association lists as above. -/

/-- A validated quiz question (`types/index.ts`). -/
structure Question where
  question : String
  options : List String
  correctAnswer : String
  rowNumber : Nat
deriving DecidableEq

/-- `UserInfo` (lines 4-12); `startTime`/`endTime` in epoch milliseconds. -/
structure UserInfo where
  userId : String
  username : Option String := none
  firstName : Option String := none
  lastName : Option String := none
  startTime : Nat
  endTime : Option Nat := none
  isActive : Bool
deriving DecidableEq

/-- `UserResult` (lines 15-19); `completionTime` in seconds, `percentage`
(a JS float) as a rational. -/
structure UserResult where
  correct : Nat
  incorrect : Nat
  total : Nat
  percentage : ℚ
  userInfo : UserInfo
  completionTime : Nat
  rank : Option Nat := none
deriving DecidableEq

/-- `QuizSession` (lines 22-30). -/
structure QuizSession where
  sessionId : String
  questions : List Question
  participants : List (String × UserInfo)
  results : List (String × UserResult)
  isActive : Bool
  startTime : Nat
  endTime : Option Nat := none
deriving DecidableEq

/-- The comparator of `calculateRankings` (lines 434-437) as a relation:
`a` sorts no later than `b` when `a` has strictly more correct answers, or
equally many and a completion time that is no larger. -/
def rankOrder (a b : UserResult) : Prop :=
  b.correct < a.correct ∨
    (a.correct = b.correct ∧ a.completionTime ≤ b.completionTime)

instance : DecidableRel rankOrder := fun a b =>
  inferInstanceAs (Decidable (b.correct < a.correct ∨
    (a.correct = b.correct ∧ a.completionTime ≤ b.completionTime)))

instance : IsTotal UserResult rankOrder :=
  ⟨fun a b => by unfold rankOrder; omega⟩

instance : IsTrans UserResult rankOrder :=
  ⟨fun a b c hab hbc => by
    unfold rankOrder at hab hbc ⊢
    omega⟩

/-- The `forEach` of `calculateRankings` (lines 439-442): assign rank
`index + 1` down the sorted list, starting from `n`. -/
def assignRanks : Nat → List UserResult → List UserResult
  | _, [] => []
  | n, r :: rest => { r with rank := some n } :: assignRanks (n + 1) rest

/-- `calculateRankings` on the list of result values: the stable sort of
`Array.prototype.sort` under the comparator is modelled by insertion sort
(also stable), then 1-based ranks are assigned in order. -/
def calculateRankings (results : List UserResult) : List UserResult :=
  assignRanks 1 (List.insertionSort rankOrder results)

/-- `createSession(requestedCount)` over the validated question list:
empty pool fails; otherwise sample `min(requestedCount, poolSize)`
questions as a truncated Fisher-Yates shuffle of the pool and open an
active session under the fresh id `sessionId`. -/
def createSession (questions : List Question) (requestedCount : Nat)
    (js : Nat → Nat) (sessionId : String) (now : Nat) :
    Except String QuizSession :=
  if questions.length = 0 then
    .error "Yaroqli savollar topilmadi"
  else
    let count := min requestedCount questions.length
    let selectedQuestions := (shuffleArray js questions).take count
    .ok { sessionId := sessionId, questions := selectedQuestions,
          participants := [], results := [], isActive := true,
          startTime := now }

/-- The per-user result record built by `setSessionResults`
(lines 406-421): count the `true` values of the user's collected map,
derive incorrect/total/percentage, stamp the user info inactive with an
end time, and compute the completion time in whole seconds. -/
def mkUserResult (userInfo : UserInfo) (userPollResults : List (Nat × Bool))
    (total : Nat) (now : Nat) : UserResult :=
  let correct := (userPollResults.map Prod.snd).count true
  { correct := correct,
    incorrect := total - correct,
    total := total,
    percentage := if 0 < total then (correct : ℚ) / (total : ℚ) * 100 else 0,
    userInfo := { userInfo with endTime := some now, isActive := false },
    completionTime := (now - userInfo.startTime) / 1000,
    rank := none }

/-- The manager: its map of sessions. -/
structure Manager where
  sessions : List (String × QuizSession)
deriving DecidableEq

/-- `setSessionResults(sessionId, results)` (lines 402-428): an unknown
session id returns with no change; otherwise every entry of the supplied
results map whose user id is a registered participant produces a
`UserResult` (others are skipped), `calculateRankings` re-sorts the result
values and writes them back keyed by `userInfo.userId`, and the session is
closed. -/
def setSessionResults (m : Manager) (sessionId : String)
    (results : ResultsMap) (now : Nat) : Manager :=
  match mapFind m.sessions sessionId with
  | none => m
  | some session =>
    let afterLoop := results.foldl
      (fun acc kv =>
        match mapFind session.participants kv.1 with
        | none => acc
        | some userInfo =>
            mapSet acc kv.1
              (mkUserResult userInfo kv.2 session.questions.length now))
      session.results
    let ranked := calculateRankings (afterLoop.map Prod.snd)
    let afterRanking := ranked.foldl
      (fun acc result => mapSet acc result.userInfo.userId result) afterLoop
    { sessions := mapSet m.sessions sessionId
        { session with results := afterRanking, isActive := false,
                       endTime := some now } }

/-! ### Timing of the `collectPollResults` loop (lines 70-120)

The loop guard `Date.now() - startTime < timeoutMs` is checked before each
iteration; an iteration then performs `getUpdates` (which the platform may
hold open, `timeout: 30` seconds), processes the batch, and sleeps 1s (2s
after a transport error).  The model advances an explicit clock (ms since
arming) by the duration of iteration `k`, drawn from a stream
`durations`. -/

/-- The polling loop as a clock transformer: while `now < timeoutMs`,
iteration `k` advances the clock by `durations k`; the returned value is
the clock at which the loop exits.  `fuel` bounds the iteration count (the
real loop needs at most `timeoutMs` iterations since every iteration takes
at least the 1s sleep). -/
def pollLoopEnd (timeoutMs : Nat) (durations : Nat → Nat) :
    Nat → Nat → Nat → Nat
  | 0, _, now => now
  | fuel + 1, k, now =>
    if now < timeoutMs then
      pollLoopEnd timeoutMs durations fuel (k + 1) (now + durations k)
    else now

/-- Exit time (ms after arming) of one `collectPollResults` answer cycle. -/
def collectLoopEndTime (timeoutMs : Nat) (durations : Nat → Nat) : Nat :=
  pollLoopEnd timeoutMs durations (timeoutMs + 1) 0 0

/-! ### Lemmas about the collection pipeline -/

theorem initResults_find_not_mem (userIds : List String) (r : ResultsMap)
    (u : String) (h : u ∉ userIds) :
    mapFind (initResults r userIds) u = mapFind r u := by
  induction userIds generalizing r with
  | nil => rfl
  | cons u₀ rest ih =>
    have hne : u ≠ u₀ := fun he => h (he ▸ List.mem_cons_self u₀ rest)
    have hrest : u ∉ rest := fun hm => h (List.mem_cons_of_mem u₀ hm)
    show mapFind (initResults (mapSet r u₀ []) rest) u = mapFind r u
    rw [ih (mapSet r u₀ []) hrest, mapFind_mapSet_ne r u₀ u [] hne]

theorem initResults_find_mem (userIds : List String) (r : ResultsMap)
    (u : String) (h : u ∈ userIds) :
    mapFind (initResults r userIds) u = some [] := by
  induction userIds generalizing r with
  | nil => cases h
  | cons u₀ rest ih =>
    by_cases hm : u ∈ rest
    · exact ih (mapSet r u₀ []) hm
    · have hu : u = u₀ := by
        rcases List.mem_cons.mp h with h | h
        · exact h
        · exact absurd h hm
      subst hu
      show mapFind (initResults (mapSet r u []) rest) u = some []
      rw [initResults_find_not_mem rest (mapSet r u []) u hm,
        mapFind_mapSet_self]

theorem processUpdate_find_isSome (polls : List (String × PollInfo))
    (r : ResultsMap) (update : Update) (u : String)
    (h : (mapFind r u).isSome) :
    (mapFind (processUpdate polls r update) u).isSome := by
  cases hpa : update.poll_answer with
  | none => simpa only [processUpdate, hpa] using h
  | some pa =>
    cases hpoll : mapFind polls pa.poll_id with
    | none => simpa only [processUpdate, hpa, hpoll] using h
    | some pollInfo =>
      cases huser : mapFind r pa.userId with
      | none => simpa only [processUpdate, hpa, hpoll, huser] using h
      | some userResults =>
        simp only [processUpdate, hpa, hpoll, huser]
        by_cases hu : u = pa.userId
        · subst hu
          rw [mapFind_mapSet_self]
          rfl
        · rw [mapFind_mapSet_ne _ _ _ _ hu]
          exact h

theorem foldl_processUpdate_find_isSome (polls : List (String × PollInfo))
    (updates : List Update) (r : ResultsMap) (u : String)
    (h : (mapFind r u).isSome) :
    (mapFind (updates.foldl (processUpdate polls) r) u).isSome := by
  induction updates generalizing r with
  | nil => exact h
  | cons e rest ih => exact ih _ (processUpdate_find_isSome polls r e u h)

theorem processUpdate_valueAt_of_not_matches (polls : List (String × PollInfo))
    (r : ResultsMap) (update : Update) (u : String) (i : Nat)
    (h : ¬ matchesEvent polls update u i) :
    valueAt (processUpdate polls r update) u i = valueAt r u i := by
  cases hpa : update.poll_answer with
  | none => simp only [processUpdate, hpa]
  | some pa =>
    cases hpoll : mapFind polls pa.poll_id with
    | none => simp only [processUpdate, hpa, hpoll]
    | some pollInfo =>
      cases huser : mapFind r pa.userId with
      | none => simp only [processUpdate, hpa, hpoll, huser]
      | some userResults =>
        simp only [processUpdate, hpa, hpoll, huser]
        by_cases hu : pa.userId = u
        · subst hu
          have hqi : pollInfo.questionIndex ≠ i := by
            intro he
            exact h ⟨pa, hpa, rfl, pollInfo, hpoll, he⟩
          unfold valueAt
          rw [mapFind_mapSet_self, huser]
          show mapFind (mapSet userResults _ _) i = mapFind userResults i
          exact mapFind_mapSet_ne _ _ _ _ (Ne.symm hqi)
        · unfold valueAt
          rw [mapFind_mapSet_ne _ _ _ _ (fun he => hu (he.symm))]

theorem foldl_processUpdate_valueAt (polls : List (String × PollInfo))
    (updates : List Update) (r : ResultsMap) (u : String) (i : Nat)
    (h : ∀ e ∈ updates, ¬ matchesEvent polls e u i) :
    valueAt (updates.foldl (processUpdate polls) r) u i = valueAt r u i := by
  induction updates generalizing r with
  | nil => rfl
  | cons e rest ih =>
    show valueAt (rest.foldl (processUpdate polls) (processUpdate polls r e)) u i
        = valueAt r u i
    rw [ih (processUpdate polls r e) (fun e' he' => h e' (List.mem_cons_of_mem e he')),
      processUpdate_valueAt_of_not_matches polls r e u i (h e (List.mem_cons_self e rest))]

theorem fillStep_find (ur : List (Nat × Bool)) (i j : Nat) :
    mapFind (if (mapFind ur i).isSome then ur else mapSet ur i false) j
      = if j = i then some ((mapFind ur i).getD false) else mapFind ur j := by
  by_cases hs : (mapFind ur i).isSome
  · rw [if_pos hs]
    by_cases hj : j = i
    · subst hj
      obtain ⟨b, hb⟩ := Option.isSome_iff_exists.mp hs
      simp [hb]
    · rw [if_neg hj]
  · rw [if_neg hs]
    have hni : mapFind ur i = none := Option.not_isSome_iff_eq_none.mp hs
    by_cases hj : j = i
    · subst hj
      rw [if_pos rfl, mapFind_mapSet_self, hni]
      rfl
    · rw [if_neg hj, mapFind_mapSet_ne _ _ _ _ hj]

theorem foldl_fillStep_find (L : List Nat) (ur : List (Nat × Bool)) (j : Nat) :
    mapFind (L.foldl
        (fun ur i => if (mapFind ur i).isSome then ur else mapSet ur i false) ur) j
      = if j ∈ L then some ((mapFind ur j).getD false) else mapFind ur j := by
  induction L generalizing ur with
  | nil => simp
  | cons i rest ih =>
    show mapFind (rest.foldl _
        (if (mapFind ur i).isSome then ur else mapSet ur i false)) j = _
    rw [ih]
    have hstep := fillStep_find ur i j
    by_cases hr : j ∈ rest
    · rw [if_pos hr, if_pos (List.mem_cons_of_mem i hr), hstep]
      by_cases hj : j = i
      · subst hj
        simp
      · rw [if_neg hj]
    · rw [if_neg hr, hstep]
      by_cases hj : j = i
      · subst hj
        rw [if_pos (List.mem_cons_self j rest)]
        simp
      · rw [if_neg hj, if_neg (by simp [hj, hr])]

theorem fillUser_find (pollCount : Nat) (ur : List (Nat × Bool)) (j : Nat)
    (h : j < pollCount) :
    mapFind (fillUser pollCount ur) j = some ((mapFind ur j).getD false) := by
  unfold fillUser
  rw [foldl_fillStep_find, if_pos (List.mem_range.mpr h)]

theorem fillUnanswered_find_not_mem (pollCount : Nat) (userIds : List String)
    (r : ResultsMap) (u : String) (h : u ∉ userIds) :
    mapFind (fillUnanswered pollCount userIds r) u = mapFind r u := by
  induction userIds generalizing r with
  | nil => rfl
  | cons u₀ rest ih =>
    have hne : u ≠ u₀ := fun he => h (he ▸ List.mem_cons_self u₀ rest)
    have hrest : u ∉ rest := fun hm => h (List.mem_cons_of_mem u₀ hm)
    show mapFind (fillUnanswered pollCount rest _) u = mapFind r u
    rw [ih _ hrest]
    cases hfind : mapFind r u₀ with
    | none => simp [hfind]
    | some ur => simp [hfind, mapFind_mapSet_ne _ _ _ _ hne]

theorem fillUnanswered_valueAt (pollCount : Nat) (userIds : List String)
    (r : ResultsMap) (u : String) (hu : u ∈ userIds)
    (hs : (mapFind r u).isSome) (i : Nat) (hi : i < pollCount) :
    valueAt (fillUnanswered pollCount userIds r) u i
      = some ((valueAt r u i).getD false) := by
  induction userIds generalizing r with
  | nil => cases hu
  | cons u₀ rest ih =>
    obtain ⟨ur, hur⟩ := Option.isSome_iff_exists.mp hs
    by_cases hm : u ∈ rest
    · show valueAt (fillUnanswered pollCount rest
          (match mapFind r u₀ with
           | some userResults => mapSet r u₀ (fillUser pollCount userResults)
           | none => r)) u i = _
      by_cases hu0 : u = u₀
      · subst hu0
        rw [hur]
        simp only
        have hs' : (mapFind (mapSet r u (fillUser pollCount ur)) u).isSome := by
          rw [mapFind_mapSet_self]; rfl
        rw [ih _ hm hs']
        unfold valueAt
        rw [mapFind_mapSet_self, hur]
        show some ((mapFind (fillUser pollCount ur) i).getD false)
            = some ((mapFind ur i).getD false)
        rw [fillUser_find pollCount ur i hi]
        simp
      · cases hfind : mapFind r u₀ with
        | none =>
          simp only
          rw [ih _ hm hs]
        | some ur₀ =>
          simp only
          have hs' : (mapFind (mapSet r u₀ (fillUser pollCount ur₀)) u).isSome := by
            rw [mapFind_mapSet_ne _ _ _ _ hu0]; exact hs
          rw [ih _ hm hs']
          unfold valueAt
          rw [mapFind_mapSet_ne _ _ _ _ hu0]
    · have hu0 : u = u₀ := by
        rcases List.mem_cons.mp hu with h | h
        · exact h
        · exact absurd h hm
      subst hu0
      show valueAt (fillUnanswered pollCount rest
          (match mapFind r u with
           | some userResults => mapSet r u (fillUser pollCount userResults)
           | none => r)) u i = _
      rw [hur]
      simp only
      unfold valueAt
      rw [fillUnanswered_find_not_mem pollCount rest _ u hm,
        mapFind_mapSet_self, hur]
      show mapFind (fillUser pollCount ur) i = some ((mapFind ur i).getD false)
      exact fillUser_find pollCount ur i hi

/-! ### The Fisher-Yates shuffle permutes its input -/

theorem get_cons_set_perm {α : Type} (t : List α) :
    ∀ (k : Nat) (h : k < t.length) (a : α),
      List.Perm ((t.get ⟨k, h⟩) :: t.set k a) (a :: t) := by
  induction t with
  | nil => intro k h a; simp at h
  | cons b t' ih =>
    intro k h a
    cases k with
    | zero => exact List.Perm.swap a b t'
    | succ k' =>
      have hk : k' < t'.length := Nat.lt_of_succ_lt_succ h
      show List.Perm (t'.get ⟨k', hk⟩ :: b :: t'.set k' a) (a :: b :: t')
      have h1 : List.Perm (t'.get ⟨k', hk⟩ :: b :: t'.set k' a)
          (b :: t'.get ⟨k', hk⟩ :: t'.set k' a) :=
        List.Perm.swap b (t'.get ⟨k', hk⟩) _
      have h2 : List.Perm (b :: t'.get ⟨k', hk⟩ :: t'.set k' a) (b :: a :: t') :=
        (ih k' hk a).cons b
      exact h1.trans (h2.trans (List.Perm.swap a b t'))

theorem set_set_perm {α : Type} (l : List α) :
    ∀ (i j : Nat) (hi : i < l.length) (hj : j < l.length),
      List.Perm ((l.set i (l.get ⟨j, hj⟩)).set j (l.get ⟨i, hi⟩)) l := by
  induction l with
  | nil => intro i j hi _; simp at hi
  | cons b t ih =>
    intro i j hi hj
    cases i with
    | zero =>
      cases j with
      | zero => simp
      | succ j' =>
        have hj' : j' < t.length := Nat.lt_of_succ_lt_succ hj
        show List.Perm (t.get ⟨j', hj'⟩ :: t.set j' b) (b :: t)
        exact get_cons_set_perm t j' hj' b
    | succ i' =>
      cases j with
      | zero =>
        have hi' : i' < t.length := Nat.lt_of_succ_lt_succ hi
        show List.Perm (t.get ⟨i', hi'⟩ :: t.set i' b) (b :: t)
        exact get_cons_set_perm t i' hi' b
      | succ j' =>
        show List.Perm (b :: ((t.set i' _).set j' _)) (b :: t)
        exact (ih i' j' (Nat.lt_of_succ_lt_succ hi)
          (Nat.lt_of_succ_lt_succ hj)).cons b

theorem swapL_perm {α : Type} (l : List α) (i j : Nat) : List.Perm (swapL l i j) l := by
  cases hi : l[i]? with
  | none => simp only [swapL, hi]; cases l[j]? <;> exact List.Perm.refl l
  | some x =>
    cases hj : l[j]? with
    | none => simp only [swapL, hi, hj]; exact List.Perm.refl l
    | some y =>
      simp only [swapL, hi, hj]
      obtain ⟨hi', hx⟩ := List.getElem?_eq_some_iff.mp hi
      obtain ⟨hj', hy⟩ := List.getElem?_eq_some_iff.mp hj
      have hx' : l.get ⟨i, hi'⟩ = x := hx
      have hy' : l.get ⟨j, hj'⟩ = y := hy
      rw [← hx', ← hy']
      exact set_set_perm l i j hi' hj'

theorem fisherYates_perm {α : Type} (js : Nat → Nat) :
    ∀ (n : Nat) (arr : List α), List.Perm (fisherYates js n arr) arr
  | 0, _ => List.Perm.refl _
  | n + 1, arr =>
    (fisherYates_perm js n _).trans (swapL_perm arr (n + 1) (js (n + 1) % (n + 2)))

theorem shuffleArray_perm {α : Type} (js : Nat → Nat) (arr : List α) :
    List.Perm (shuffleArray js arr) arr :=
  fisherYates_perm js (arr.length - 1) arr

/-! ### Rank assignment -/

theorem assignRanks_length (n : Nat) (l : List UserResult) :
    (assignRanks n l).length = l.length := by
  induction l generalizing n with
  | nil => rfl
  | cons r rest ih => simp [assignRanks, ih]

theorem assignRanks_get (l : List UserResult) :
    ∀ (n i : Nat) (h : i < (assignRanks n l).length) (h' : i < l.length),
      (assignRanks n l).get ⟨i, h⟩ = { l.get ⟨i, h'⟩ with rank := some (n + i) } := by
  induction l with
  | nil => intro n i h _; rw [assignRanks_length] at h; simp at h
  | cons r rest ih =>
    intro n i h h'
    cases i with
    | zero => simp [assignRanks]
    | succ i' =>
      have h2 : i' < (assignRanks (n + 1) rest).length := by
        rw [assignRanks_length]
        exact Nat.lt_of_succ_lt_succ h'
      show (assignRanks (n + 1) rest).get ⟨i', h2⟩ = _
      rw [ih (n + 1) i' h2 (Nat.lt_of_succ_lt_succ h')]
      show _ = { rest.get ⟨i', _⟩ with rank := some (n + (i' + 1)) }
      have : n + 1 + i' = n + (i' + 1) := by omega
      rw [this]

theorem mem_assignRanks (l : List UserResult) :
    ∀ (n : Nat) (r : UserResult), r ∈ assignRanks n l →
      ∃ v ∈ l, r = { v with rank := r.rank } := by
  induction l with
  | nil => intro n r h; cases h
  | cons v rest ih =>
    intro n r h
    rcases List.mem_cons.mp h with h | h
    · exact ⟨v, List.mem_cons_self v rest, by rw [h]⟩
    · obtain ⟨v', hv', he⟩ := ih (n + 1) r h
      exact ⟨v', List.mem_cons_of_mem v hv', he⟩

/-! ### Retry loop -/

theorem retryLoop_attempts_le (outcomes : Nat → AttemptResult) :
    ∀ (fuel attempt : Nat) (lastError : Option String),
      (retryLoop outcomes fuel attempt lastError).attempts ≤ fuel := by
  intro fuel
  induction fuel with
  | zero => intro _ _; exact Nat.le_refl 0
  | succ f ih =>
    intro attempt lastError
    cases h : outcomes attempt with
    | success data => simp only [retryLoop, h]; omega
    | tooManyRequests ra =>
      simp only [retryLoop, h]
      exact Nat.succ_le_succ (ih (attempt + 1) lastError)
    | httpFailure s d =>
      simp only [retryLoop, h]
      exact Nat.succ_le_succ (ih (attempt + 1) _)
    | transportError m =>
      simp only [retryLoop, h]
      exact Nat.succ_le_succ (ih (attempt + 1) _)

/-- Peeling the bottom attempt off a `lastCaughtIn` window: the last
caught error in `[attempt, attempt + fuel + 1)` is the one in
`[attempt + 1, attempt + 1 + fuel)` when that exists, else whatever
attempt `attempt` itself recorded. -/
theorem lastCaughtIn_succ (outcomes : Nat → AttemptResult) (attempt : Nat) :
    ∀ fuel : Nat,
      lastCaughtIn outcomes attempt (fuel + 1)
        = (match lastCaughtIn outcomes (attempt + 1) fuel with
           | some m => some m
           | none => caughtMessage (outcomes attempt)) := by
  intro fuel
  induction fuel with
  | zero =>
    show (match caughtMessage (outcomes (attempt + 0)) with
          | some m => some m
          | none => lastCaughtIn outcomes attempt 0) = _
    rw [Nat.add_zero]
    cases caughtMessage (outcomes attempt) with
    | some m => rfl
    | none => rfl
  | succ f ih =>
    have harith : attempt + 1 + f = attempt + (f + 1) := by omega
    have hinner : lastCaughtIn outcomes (attempt + 1) (f + 1)
        = (match caughtMessage (outcomes (attempt + (f + 1))) with
           | some m => some m
           | none => lastCaughtIn outcomes (attempt + 1) f) := by
      show (match caughtMessage (outcomes (attempt + 1 + f)) with
            | some m => some m
            | none => lastCaughtIn outcomes (attempt + 1) f) = _
      rw [harith]
    show (match caughtMessage (outcomes (attempt + (f + 1))) with
          | some m => some m
          | none => lastCaughtIn outcomes attempt (f + 1)) = _
    rw [hinner]
    cases hc : caughtMessage (outcomes (attempt + (f + 1))) with
    | some m => rfl
    | none =>
      rw [ih]

/-- When no attempt in the window succeeds, the retry loop fails with the
last observed caught error of the window, falling back to the incoming
`lastError` and finally to the generic message — exactly the loop's
`throw lastError || new Error(...)`. -/
theorem retryLoop_result_of_no_success (outcomes : Nat → AttemptResult) :
    ∀ (fuel attempt : Nat) (lastError : Option String),
      (∀ k, attempt ≤ k → k < attempt + fuel → ∀ d, outcomes k ≠ .success d) →
      (retryLoop outcomes fuel attempt lastError).result
        = .error ((match lastCaughtIn outcomes attempt fuel with
            | some m => some m
            | none => lastError).getD "Sorov muvaffaqiyatsiz") := by
  intro fuel
  induction fuel with
  | zero =>
    intro attempt lastError _
    rfl
  | succ f ih =>
    intro attempt lastError hno
    have hpeel := lastCaughtIn_succ outcomes attempt f
    cases h : outcomes attempt with
    | success d =>
      exact absurd h (hno attempt (Nat.le_refl _) (by omega) d)
    | tooManyRequests ra =>
      simp only [retryLoop, h]
      rw [ih (attempt + 1) lastError (fun k h1 h2 => hno k (by omega) (by omega))]
      rw [hpeel]
      have hc : caughtMessage (outcomes attempt) = none := by
        rw [h]
        rfl
      rw [hc]
      cases lastCaughtIn outcomes (attempt + 1) f with
      | some m => rfl
      | none => rfl
    | httpFailure s d =>
      simp only [retryLoop, h]
      rw [ih (attempt + 1) (some (d.getD ("HTTP " ++ toString s)))
        (fun k h1 h2 => hno k (by omega) (by omega))]
      rw [hpeel]
      have hc : caughtMessage (outcomes attempt)
          = some (d.getD ("HTTP " ++ toString s)) := by
        rw [h]
        rfl
      rw [hc]
      cases lastCaughtIn outcomes (attempt + 1) f with
      | some m => rfl
      | none => rfl
    | transportError msg =>
      simp only [retryLoop, h]
      rw [ih (attempt + 1) (some msg)
        (fun k h1 h2 => hno k (by omega) (by omega))]
      rw [hpeel]
      have hc : caughtMessage (outcomes attempt) = some msg := by
        rw [h]
        rfl
      rw [hc]
      cases lastCaughtIn outcomes (attempt + 1) f with
      | some m => rfl
      | none => rfl

/-- A 429 consumes exactly one unit of the attempt budget: the loop step
for a 429 outcome adds one attempt and continues with one unit less
fuel. -/
theorem retryLoop_429_one_attempt (outcomes : Nat → AttemptResult)
    (fuel attempt : Nat) (lastError : Option String) (ra : Option Nat)
    (h : outcomes attempt = .tooManyRequests ra) :
    (retryLoop outcomes (fuel + 1) attempt lastError).attempts
      = (retryLoop outcomes fuel (attempt + 1) lastError).attempts + 1 := by
  simp only [retryLoop, h]

theorem retryLoop_429_sleep (outcomes : Nat → AttemptResult) :
    ∀ (fuel attempt : Nat) (lastError : Option String) (k : Nat) (ra : Option Nat),
      attempt ≤ k →
      k < attempt + (retryLoop outcomes fuel attempt lastError).attempts →
      outcomes k = .tooManyRequests ra →
      ra.getD (2 ^ k) ∈ (retryLoop outcomes fuel attempt lastError).sleeps := by
  intro fuel
  induction fuel with
  | zero => intro attempt _ k _ h1 h2 _; simp [retryLoop] at h2; omega
  | succ f ih =>
    intro attempt lastError k ra h1 h2 hk
    cases h : outcomes attempt with
    | success data =>
      simp only [retryLoop, h] at h2 ⊢
      have : k = attempt := by omega
      rw [this, h] at hk
      cases hk
    | tooManyRequests ra' =>
      simp only [retryLoop, h] at h2 ⊢
      by_cases hka : k = attempt
      · subst hka
        rw [h] at hk
        cases hk
        exact List.mem_cons_self _ _
      · have h1' : attempt + 1 ≤ k := by omega
        exact List.mem_cons_of_mem _ (ih (attempt + 1) lastError k ra h1' (by omega) hk)
    | httpFailure s d =>
      simp only [retryLoop, h] at h2 ⊢
      by_cases hka : k = attempt
      · subst hka; rw [h] at hk; cases hk
      · exact List.mem_append_right _ (ih (attempt + 1) _ k ra (by omega) (by omega) hk)
    | transportError m =>
      simp only [retryLoop, h] at h2 ⊢
      by_cases hka : k = attempt
      · subst hka; rw [h] at hk; cases hk
      · exact List.mem_append_right _ (ih (attempt + 1) _ k ra (by omega) (by omega) hk)

/-! ### Polling-loop timing -/

theorem pollLoopEnd_le (timeoutMs D : Nat) (durations : Nat → Nat)
    (hD : ∀ k, durations k ≤ D) :
    ∀ (fuel k now : Nat), now ≤ timeoutMs + D →
      pollLoopEnd timeoutMs durations fuel k now ≤ timeoutMs + D := by
  intro fuel
  induction fuel with
  | zero => intro _ _ h; exact h
  | succ f ih =>
    intro k now hnow
    show (if now < timeoutMs then
        pollLoopEnd timeoutMs durations f (k + 1) (now + durations k) else now)
      ≤ timeoutMs + D
    by_cases h : now < timeoutMs
    · rw [if_pos h]
      exact ih (k + 1) (now + durations k) (by have := hD k; omega)
    · rw [if_neg h]
      exact hnow

/-! ### Claims -/

/-- C1: after `collectPollResults(userIds, pollCount, timeoutSeconds,
questions)` returns, every `(userId, questionIndex)` pair with
`userId ∈ userIds` and `questionIndex < pollCount` has exactly one boolean
record in the returned map, and every pair for which no matching answer
event was processed before the timeout is recorded as `false` — no
question is left partially scored. -/
theorem C1_collect_complete (polls : List (String × PollInfo))
    (results : ResultsMap) (userIds : List String) (pollCount : Nat)
    (updates : List Update) (u : String) (hu : u ∈ userIds)
    (i : Nat) (hi : i < pollCount) :
    (∃ b, valueAt (collectPollResults polls results userIds pollCount updates) u i
        = some b)
    ∧ ((∀ e ∈ updates, ¬ matchesEvent polls e u i) →
        valueAt (collectPollResults polls results userIds pollCount updates) u i
          = some false) := by
  have hinit : mapFind (initResults results userIds) u = some [] :=
    initResults_find_mem userIds results u hu
  have hsome : (mapFind (updates.foldl (processUpdate polls)
      (initResults results userIds)) u).isSome :=
    foldl_processUpdate_find_isSome polls updates _ u (by rw [hinit]; rfl)
  unfold collectPollResults
  constructor
  · exact ⟨_, fillUnanswered_valueAt pollCount userIds _ u hu hsome i hi⟩
  · intro hnm
    have hval := fillUnanswered_valueAt pollCount userIds _ u hu hsome i hi
    rw [foldl_processUpdate_valueAt polls updates _ u i hnm] at hval
    have hnone : valueAt (initResults results userIds) u i = none := by
      unfold valueAt
      rw [hinit]
      rfl
    rw [hnone] at hval
    exact hval

/-- Witness for C1 at a concrete input: one user, one question, no
delivered events. -/
theorem C1_collect_complete_witness :
    (∃ b, valueAt (collectPollResults [("p1", ⟨"p1", 0, 1, 4⟩)] [] ["77"] 1 [])
        "77" 0 = some b)
    ∧ ((∀ e ∈ ([] : List Update),
          ¬ matchesEvent [("p1", ⟨"p1", 0, 1, 4⟩)] e "77" 0) →
        valueAt (collectPollResults [("p1", ⟨"p1", 0, 1, 4⟩)] [] ["77"] 1 [])
          "77" 0 = some false) :=
  C1_collect_complete _ _ _ _ _ "77" (List.mem_singleton.mpr rfl) 0 Nat.zero_lt_one

/-- C2 counterexample: in the `collectPollResults` loop a second delivery
for the same `(participant, questionIndex)` overwrites the recorded
correctness.  Processing only the first event (a correct answer) records
`true`; processing the duplicate (an incorrect selection) afterwards
changes the record to `false`, so the recorded correctness is not the one
determined by the first delivery. -/
theorem C2_counterexample :
    valueAt (collectPollResults [("p1", ⟨"p1", 0, 0, 5⟩)] [] ["9"] 1
        [⟨1, some ⟨"9", "p1", [0]⟩⟩]) "9" 0 = some true
    ∧ valueAt (collectPollResults [("p1", ⟨"p1", 0, 0, 5⟩)] [] ["9"] 1
        [⟨1, some ⟨"9", "p1", [0]⟩⟩, ⟨2, some ⟨"9", "p1", [1]⟩⟩]) "9" 0
      = some false := by
  constructor <;> rfl

/-- C2 (amended): duplicate or late deliveries are never an error, but the
two collection loops treat them differently.  In `waitForSinglePollResult`
(part_000) an answer event for an expectation already marked answered
leaves both the expectation states and the recorded results unchanged
(first delivery wins); in the `collectPollResults` loop the recorded
correctness for `(participant, questionIndex)` is the one determined by
the last processed delivery (a duplicate overwrites). -/
theorem C2_duplicate_delivery (states : List (String × UserPollState))
    (results : ResultsMap) (update : Update)
    (polls : List (String × PollInfo)) (r : ResultsMap) (e : Update) :
    (∀ pa state, update.poll_answer = some pa →
      mapFind states pa.userId = some state → state.isAnswered = true →
      processUpdateW states results update = (states, results))
    ∧ (∀ pa pollInfo, e.poll_answer = some pa →
        mapFind polls pa.poll_id = some pollInfo →
        (mapFind r pa.userId).isSome →
        valueAt (processUpdate polls r e) pa.userId pollInfo.questionIndex
          = some (pa.option_ids.contains pollInfo.correctOptionId)) := by
  constructor
  · intro pa state hpa hfind hansw
    simp only [processUpdateW, hpa, hfind]
    rw [if_neg (by simp [hansw])]
  · intro pa pollInfo hpa hpoll hsome
    obtain ⟨ur, hur⟩ := Option.isSome_iff_exists.mp hsome
    simp only [processUpdate, hpa, hpoll, hur]
    unfold valueAt
    rw [mapFind_mapSet_self]
    show mapFind (mapSet ur pollInfo.questionIndex _) pollInfo.questionIndex = _
    rw [mapFind_mapSet_self]

/-- Witness for the amended C2: a duplicate delivery against an answered
expectation changes nothing, and in the overwrite loop the last delivery
(a correct one) determines the stored value. -/
theorem C2_duplicate_delivery_witness :
    processUpdateW [("9", ⟨"p1", 0, 0, true⟩)] [("9", [(0, true)])]
        ⟨3, some ⟨"9", "p1", [1]⟩⟩
      = ([("9", ⟨"p1", 0, 0, true⟩)], [("9", [(0, true)])])
    ∧ valueAt (processUpdate [("p2", ⟨"p2", 1, 2, 7⟩)] [("8", [])]
        ⟨4, some ⟨"8", "p2", [2]⟩⟩) "8" 1 = some true :=
  ⟨(C2_duplicate_delivery [("9", ⟨"p1", 0, 0, true⟩)] [("9", [(0, true)])]
      ⟨3, some ⟨"9", "p1", [1]⟩⟩ [] [] ⟨0, none⟩).1
      ⟨"9", "p1", [1]⟩ ⟨"p1", 0, 0, true⟩ rfl rfl rfl,
   (C2_duplicate_delivery [] [] ⟨0, none⟩ [("p2", ⟨"p2", 1, 2, 7⟩)] [("8", [])]
      ⟨4, some ⟨"8", "p2", [2]⟩⟩).2
      ⟨"8", "p2", [2]⟩ ⟨"p2", 1, 2, 7⟩ rfl rfl rfl⟩

/-- C6 counterexample: a run in which every attempt is answered HTTP 429
exhausts the 3-attempt budget (each 429 consumes one attempt) yet records
no observed error — `lastError` stays null — so the operation fails with
the generic fallback message rather than "an error carrying the last
observed error" as the claim states. -/
theorem C6_counterexample :
    (makeRequestWithRetry (fun _ => AttemptResult.tooManyRequests none)).result
      = .error "Sorov muvaffaqiyatsiz"
    ∧ caughtMessage (AttemptResult.tooManyRequests none) = none
    ∧ (makeRequestWithRetry (fun _ => AttemptResult.tooManyRequests none)).attempts
      = 3 :=
  ⟨rfl, rfl, rfl⟩

/-- C6 (amended): every operation routed through `makeRequestWithRetry`
makes at most 3 attempts; an HTTP 429 at a reached attempt `k` causes a
sleep of the platform-supplied retry-after (or `2^k` seconds when absent),
and each 429 consumes exactly one unit of the attempt budget — never
more; when no attempt succeeds (429s and caught errors in any mixture)
the operation fails with an error carrying the last observed caught
(non-429) error when some attempt recorded one, and the generic failure
message when none did — the caller is always bounded. -/
theorem C6_retry_bounded (outcomes : Nat → AttemptResult) :
    (makeRequestWithRetry outcomes).attempts ≤ 3
    ∧ (∀ k ra, 1 ≤ k → k < 1 + (makeRequestWithRetry outcomes).attempts →
        outcomes k = .tooManyRequests ra →
        ra.getD (2 ^ k) ∈ (makeRequestWithRetry outcomes).sleeps)
    ∧ (∀ fuel attempt lastError ra, outcomes attempt = .tooManyRequests ra →
        (retryLoop outcomes (fuel + 1) attempt lastError).attempts
          = (retryLoop outcomes fuel (attempt + 1) lastError).attempts + 1)
    ∧ ((∀ k, 1 ≤ k → k ≤ 3 → ∀ d, outcomes k ≠ .success d) →
        (makeRequestWithRetry outcomes).result
          = .error ((lastCaughtIn outcomes 1 3).getD "Sorov muvaffaqiyatsiz")) := by
  refine ⟨retryLoop_attempts_le outcomes 3 1 none, ?_, ?_, ?_⟩
  · intro k ra h1 h2 hk
    exact retryLoop_429_sleep outcomes 3 1 none k ra h1 h2 hk
  · intro fuel attempt lastError ra h
    exact retryLoop_429_one_attempt outcomes fuel attempt lastError ra h
  · intro h
    have hres := retryLoop_result_of_no_success outcomes 3 1 none
      (fun k hk1 hk2 d => h k hk1 (by omega) d)
    cases hl : lastCaughtIn outcomes 1 3 with
    | some m =>
      rw [hl] at hres
      exact hres
    | none =>
      rw [hl] at hres
      exact hres

/-- Witness for the amended C6: a mixed run — a 429 on the first attempt,
caught HTTP failures afterwards — sleeps the supplied retry-after, stays
within 3 attempts, consumes exactly one attempt for the 429, and ends in
an error carrying the last observed caught error of the run. -/
theorem C6_retry_bounded_witness :
    (makeRequestWithRetry (fun k => if k = 1 then .tooManyRequests (some 7)
        else .httpFailure 500 none)).attempts ≤ 3
    ∧ (some 7).getD (2 ^ 1) ∈ (makeRequestWithRetry
        (fun k => if k = 1 then .tooManyRequests (some 7)
          else .httpFailure 500 none)).sleeps
    ∧ (retryLoop (fun k => if k = 1 then AttemptResult.tooManyRequests (some 7)
          else .httpFailure 500 none) 3 1 none).attempts
        = (retryLoop (fun k => if k = 1 then AttemptResult.tooManyRequests (some 7)
            else .httpFailure 500 none) 2 2 none).attempts + 1
    ∧ (makeRequestWithRetry (fun k => if k = 1
          then AttemptResult.tooManyRequests (some 7)
          else .httpFailure 500 none)).result
        = .error ((lastCaughtIn (fun k => if k = 1
            then AttemptResult.tooManyRequests (some 7)
            else .httpFailure 500 none) 1 3).getD "Sorov muvaffaqiyatsiz") := by
  refine ⟨(C6_retry_bounded _).1, ?_, ?_, ?_⟩
  · exact (C6_retry_bounded _).2.1 1 (some 7) (by decide) (by decide) rfl
  · exact (C6_retry_bounded _).2.2.1 2 1 none (some 7) rfl
  · refine (C6_retry_bounded _).2.2.2 ?_
    intro k h1 h2 d
    by_cases hk : k = 1 <;> simp [hk]

/-- C9 counterexample: with the spec's own operation bounds (a
`getUpdates` long-poll held for 30s followed by the 1s inter-poll sleep,
i.e. a 31000ms iteration) and a 1s collection timeout, the loop returns
31000ms after arming — long past the configured timeout, because the
deadline is only consulted between iterations. -/
theorem C9_counterexample :
    collectLoopEndTime 1000 (fun _ => 31000) = 31000
    ∧ 1000 < collectLoopEndTime 1000 (fun _ => 31000) := by
  have h : collectLoopEndTime 1000 (fun _ => 31000) = 31000 := rfl
  exact ⟨h, by rw [h]; omega⟩

/-- C9 (amended): the answer-collection loop never starts a new iteration
after the configured timeout, so it terminates and returns no later than
the timeout plus the duration of one in-flight iteration (one `getUpdates`
long-poll plus processing and the back-off sleep); it is bounded, but not
by the timeout alone. -/
theorem C9_loop_bounded (timeoutMs D : Nat) (durations : Nat → Nat)
    (hD : ∀ k, durations k ≤ D) :
    collectLoopEndTime timeoutMs durations ≤ timeoutMs + D :=
  pollLoopEnd_le timeoutMs D durations hD (timeoutMs + 1) 0 0 (Nat.zero_le _)

/-- Witness for the amended C9: with 31s iterations and a 1s timeout the
loop ends within 1s + 31s. -/
theorem C9_loop_bounded_witness :
    collectLoopEndTime 1000 (fun _ => 31000) ≤ 1000 + 31000 :=
  C9_loop_bounded 1000 31000 (fun _ => 31000) (fun _ => Nat.le_refl 31000)

/-- Positions in `calculateRankings` come from the sorted list, with rank
`1 + i` attached at position `i`. -/
theorem calculateRankings_get (results : List UserResult) (i : Nat)
    (hi : i < (calculateRankings results).length) :
    ∃ hi' : i < (List.insertionSort rankOrder results).length,
      (calculateRankings results).get ⟨i, hi⟩
        = { (List.insertionSort rankOrder results).get ⟨i, hi'⟩ with
            rank := some (1 + i) } := by
  have hi' : i < (List.insertionSort rankOrder results).length := by
    have h := hi
    rw [show (calculateRankings results) = assignRanks 1 (List.insertionSort rankOrder results) from rfl,
      assignRanks_length] at h
    exact h
  exact ⟨hi', assignRanks_get (List.insertionSort rankOrder results) 1 i hi hi'⟩

/-- C3: `calculateRankings` assigns 1-based ranks in sorted order, so a
participant with strictly more correct answers sits at a strictly earlier
position (hence a strictly smaller rank) than one with fewer, and among
equal correct counts the smaller completion time sits strictly earlier;
the assignment is a pure function of its input, hence deterministic. -/
theorem C3_ranking (results : List UserResult) (i j : Nat)
    (hi : i < (calculateRankings results).length)
    (hj : j < (calculateRankings results).length) :
    ((calculateRankings results).get ⟨i, hi⟩).rank = some (i + 1)
    ∧ (((calculateRankings results).get ⟨j, hj⟩).correct
        < ((calculateRankings results).get ⟨i, hi⟩).correct → i < j)
    ∧ (((calculateRankings results).get ⟨i, hi⟩).correct
          = ((calculateRankings results).get ⟨j, hj⟩).correct →
        ((calculateRankings results).get ⟨i, hi⟩).completionTime
          < ((calculateRankings results).get ⟨j, hj⟩).completionTime → i < j)
    ∧ calculateRankings results = calculateRankings results := by
  obtain ⟨hi', hgi⟩ := calculateRankings_get results i hi
  obtain ⟨hj', hgj⟩ := calculateRankings_get results j hj
  have hsorted : List.Sorted rankOrder (List.insertionSort rankOrder results) :=
    List.sorted_insertionSort rankOrder results
  refine ⟨?_, ?_, ?_, rfl⟩
  · rw [hgi]
    show some (1 + i) = some (i + 1)
    rw [Nat.add_comm]
  · intro h
    rw [hgi, hgj] at h
    by_contra hji
    push_neg at hji
    rcases Nat.eq_or_lt_of_le hji with he | hlt
    · subst he
      exact absurd h (Nat.lt_irrefl _)
    · have hr : ((List.insertionSort rankOrder results).get ⟨i, hi'⟩).correct
            < ((List.insertionSort rankOrder results).get ⟨j, hj'⟩).correct
          ∨ (((List.insertionSort rankOrder results).get ⟨j, hj'⟩).correct
              = ((List.insertionSort rankOrder results).get ⟨i, hi'⟩).correct
            ∧ ((List.insertionSort rankOrder results).get ⟨j, hj'⟩).completionTime
              ≤ ((List.insertionSort rankOrder results).get ⟨i, hi'⟩).completionTime) :=
        hsorted.rel_get_of_lt (show (⟨j, hj'⟩ : Fin _) < ⟨i, hi'⟩ from hlt)
      simp only at h
      omega
  · intro hc ht
    rw [hgi, hgj] at hc ht
    by_contra hji
    push_neg at hji
    rcases Nat.eq_or_lt_of_le hji with he | hlt
    · subst he
      exact absurd ht (Nat.lt_irrefl _)
    · have hr : ((List.insertionSort rankOrder results).get ⟨i, hi'⟩).correct
            < ((List.insertionSort rankOrder results).get ⟨j, hj'⟩).correct
          ∨ (((List.insertionSort rankOrder results).get ⟨j, hj'⟩).correct
              = ((List.insertionSort rankOrder results).get ⟨i, hi'⟩).correct
            ∧ ((List.insertionSort rankOrder results).get ⟨j, hj'⟩).completionTime
              ≤ ((List.insertionSort rankOrder results).get ⟨i, hi'⟩).completionTime) :=
        hsorted.rel_get_of_lt (show (⟨j, hj'⟩ : Fin _) < ⟨i, hi'⟩ from hlt)
      simp only at hc ht
      omega

/-- Witness for C3: two participants, equal structure to the spec's
two-participant scenario (3 correct in 30s beats 3 correct in 45s when
sorted; here 2 correct beats 1 correct). -/
theorem C3_ranking_witness :
    ∃ h0 : 0 < (calculateRankings
        [⟨1, 1, 2, 50, ⟨"b", none, none, none, 0, none, true⟩, 5, none⟩,
         ⟨2, 0, 2, 100, ⟨"a", none, none, none, 0, none, true⟩, 30, none⟩]).length,
    ∃ h1 : 1 < (calculateRankings
        [⟨1, 1, 2, 50, ⟨"b", none, none, none, 0, none, true⟩, 5, none⟩,
         ⟨2, 0, 2, 100, ⟨"a", none, none, none, 0, none, true⟩, 30, none⟩]).length,
      ((calculateRankings
        [⟨1, 1, 2, 50, ⟨"b", none, none, none, 0, none, true⟩, 5, none⟩,
         ⟨2, 0, 2, 100, ⟨"a", none, none, none, 0, none, true⟩, 30, none⟩]).get
          ⟨0, h0⟩).rank = some 1
      ∧ (((calculateRankings
        [⟨1, 1, 2, 50, ⟨"b", none, none, none, 0, none, true⟩, 5, none⟩,
         ⟨2, 0, 2, 100, ⟨"a", none, none, none, 0, none, true⟩, 30, none⟩]).get
          ⟨1, h1⟩).correct
          < ((calculateRankings
        [⟨1, 1, 2, 50, ⟨"b", none, none, none, 0, none, true⟩, 5, none⟩,
         ⟨2, 0, 2, 100, ⟨"a", none, none, none, 0, none, true⟩, 30, none⟩]).get
          ⟨0, h0⟩).correct → (0 : Nat) < 1) := by
  have h0 : 0 < (calculateRankings
      [⟨1, 1, 2, 50, ⟨"b", none, none, none, 0, none, true⟩, 5, none⟩,
       ⟨2, 0, 2, 100, ⟨"a", none, none, none, 0, none, true⟩, 30, none⟩]).length := by
    decide
  have h1 : 1 < (calculateRankings
      [⟨1, 1, 2, 50, ⟨"b", none, none, none, 0, none, true⟩, 5, none⟩,
       ⟨2, 0, 2, 100, ⟨"a", none, none, none, 0, none, true⟩, 30, none⟩]).length := by
    decide
  exact ⟨h0, h1, (C3_ranking _ 0 1 h0 h1).1, (C3_ranking _ 0 1 h0 h1).2.1⟩

/-- C4: `createSession` on an empty validated pool fails with an error;
on a non-empty pool it returns an active session under the fresh id whose
question list is the prefix of length `min(requestedCount, poolSize)` of a
permutation of the pool produced by the Fisher-Yates shuffle — in
particular the sample is drawn without replacement. -/
theorem C4_createSession (questions : List Question) (requestedCount : Nat)
    (js : Nat → Nat) (sessionId : String) (now : Nat) :
    (questions = [] →
      ∃ e, createSession questions requestedCount js sessionId now = .error e)
    ∧ (questions ≠ [] → ∃ session,
        createSession questions requestedCount js sessionId now = .ok session
        ∧ session.isActive = true
        ∧ session.sessionId = sessionId
        ∧ session.questions.length = min requestedCount questions.length
        ∧ ∃ shuffled, List.Perm shuffled questions
            ∧ session.questions
              = shuffled.take (min requestedCount questions.length)) := by
  constructor
  · intro h
    subst h
    exact ⟨_, rfl⟩
  · intro h
    have hlen : ¬ questions.length = 0 :=
      fun h0 => h (List.eq_nil_of_length_eq_zero h0)
    refine ⟨{ sessionId := sessionId,
              questions := (shuffleArray js questions).take
                (min requestedCount questions.length),
              participants := [], results := [], isActive := true,
              startTime := now }, ?_, rfl, rfl, ?_,
            shuffleArray js questions, shuffleArray_perm js questions, rfl⟩
    · show createSession questions requestedCount js sessionId now = _
      unfold createSession
      rw [if_neg hlen]
    · show ((shuffleArray js questions).take
          (min requestedCount questions.length)).length
        = min requestedCount questions.length
      rw [List.length_take, (shuffleArray_perm js questions).length_eq]
      omega

/-- Witness for C4: a two-question pool with one requested question. -/
theorem C4_createSession_witness :
    ∃ session,
      createSession [⟨"q1", ["a", "b"], "a", 2⟩, ⟨"q2", ["c", "d"], "c", 3⟩]
        1 (fun _ => 0) "sid" 17 = .ok session
      ∧ session.isActive = true
      ∧ session.sessionId = "sid"
      ∧ session.questions.length
          = min 1 [⟨"q1", ["a", "b"], "a", 2⟩, (⟨"q2", ["c", "d"], "c", 3⟩ : Question)].length
      ∧ ∃ shuffled,
          List.Perm shuffled [⟨"q1", ["a", "b"], "a", 2⟩, ⟨"q2", ["c", "d"], "c", 3⟩]
          ∧ session.questions = shuffled.take
              (min 1 [⟨"q1", ["a", "b"], "a", 2⟩, (⟨"q2", ["c", "d"], "c", 3⟩ : Question)].length) :=
  (C4_createSession [⟨"q1", ["a", "b"], "a", 2⟩, ⟨"q2", ["c", "d"], "c", 3⟩]
    1 (fun _ => 0) "sid" 17).2 (by simp)

/-- C7: whenever the cleaned options number at least 2 and contain the
trimmed correct answer, `shuffleWithCorrectIndex` returns a permutation of
the cleaned options together with an index at which the shuffled list
holds exactly the trimmed correct answer; when the correct answer is
absent after cleaning, it fails with an error instead of returning. -/
theorem C7_shuffle_correct_index (js : Nat → Nat) (options : List String)
    (correctAnswer : String) :
    (2 ≤ (cleanOptionsOf options).length →
      trimStr correctAnswer ∈ cleanOptionsOf options →
      ∃ shuffled idx,
        shuffleWithCorrectIndex js options correctAnswer = .ok (shuffled, idx)
        ∧ List.Perm shuffled (cleanOptionsOf options)
        ∧ ∃ hidx : idx < shuffled.length,
            shuffled.get ⟨idx, hidx⟩ = trimStr correctAnswer)
    ∧ (trimStr correctAnswer ∉ cleanOptionsOf options →
        ∃ e, shuffleWithCorrectIndex js options correctAnswer = .error e) := by
  constructor
  · intro h2 hmem
    have hperm := shuffleArray_perm js (cleanOptionsOf options)
    have hmem' : trimStr correctAnswer ∈ shuffleArray js (cleanOptionsOf options) :=
      (hperm.mem_iff).mpr hmem
    have hidx : (shuffleArray js (cleanOptionsOf options)).indexOf (trimStr correctAnswer)
        < (shuffleArray js (cleanOptionsOf options)).length :=
      List.indexOf_lt_length.mpr hmem'
    refine ⟨shuffleArray js (cleanOptionsOf options), _, ?_, hperm, hidx,
      List.indexOf_get hidx⟩
    unfold shuffleWithCorrectIndex
    rw [if_neg (by omega), if_pos hmem]
  · intro hnot
    unfold shuffleWithCorrectIndex
    by_cases hlen : (cleanOptionsOf options).length < 2
    · rw [if_pos hlen]
      exact ⟨_, rfl⟩
    · rw [if_neg hlen, if_neg hnot]
      exact ⟨_, rfl⟩

/-- Witness for C7: a well-formed option pair, and a correct answer that
cleaning cannot find. -/
theorem C7_shuffle_correct_index_witness :
    (∃ shuffled idx,
        shuffleWithCorrectIndex (fun _ => 0) ["b ", "a"] "a" = .ok (shuffled, idx)
        ∧ List.Perm shuffled (cleanOptionsOf ["b ", "a"])
        ∧ ∃ hidx : idx < shuffled.length, shuffled.get ⟨idx, hidx⟩ = trimStr "a")
    ∧ (∃ e, shuffleWithCorrectIndex (fun _ => 0) ["b ", "a"] "zz" = .error e) :=
  ⟨(C7_shuffle_correct_index (fun _ => 0) ["b ", "a"] "a").1 (by decide) (by decide),
   (C7_shuffle_correct_index (fun _ => 0) ["b ", "a"] "zz").2 (by decide)⟩

/-- C5 counterexample: the long-question supplementary message is sent
before the option validation runs, so a `sendPoll` with a 256-unit
question and a single sanitized option fails with the validation error
only after a `sendMessage` network call has already been made — not
before any network call. -/
theorem C5_counterexample :
    (sendPoll "c" (String.mk (List.replicate 256 'a')) ["A"] 0 20).1
      = [NetCall.message "c"
          (longQuestionMessage (String.mk (List.replicate 256 'a')))]
    ∧ ∃ e, (sendPoll "c" (String.mk (List.replicate 256 'a')) ["A"] 0 20).2
        = .error e := by
  have hq : strLen (String.mk (List.replicate 256 'a')) = 256 := by
    show (List.replicate 256 'a').length = 256
    rw [List.length_replicate]
  have hopts : sanitizePollOptions ["A"] = ["A"] := by decide
  have hred : sendPoll "c" (String.mk (List.replicate 256 'a')) ["A"] 0 20
      = ([NetCall.message "c"
            (longQuestionMessage (String.mk (List.replicate 256 'a')))],
         .error "Poll variantlari soni 2-10 orasida bolishi kerak") := by
    simp only [sendPoll, hq, hopts]
    norm_num
  exact ⟨by rw [hred], ⟨_, by rw [hred]⟩⟩

/-- C5 (amended): when the sanitized option count is out of `[2, 10]` or
the correct-option index is out of range, `sendPoll` fails with a
validation error before the poll request itself is dispatched — the trace
contains no poll request, only (possibly) the long-question supplementary
message; and when the question is within the 255-unit truncation limit the
failure happens before any network call at all. -/
theorem C5_sendPoll_validation (chatId question : String)
    (options : List String) (correctOptionId : Int) (openPeriod : Nat)
    (hval : (sanitizePollOptions options).length < 2
      ∨ 10 < (sanitizePollOptions options).length
      ∨ correctOptionId < 0
      ∨ ((sanitizePollOptions options).length : Int) ≤ correctOptionId) :
    (∃ e, (sendPoll chatId question options correctOptionId openPeriod).2
        = .error e)
    ∧ (∀ c ∈ (sendPoll chatId question options correctOptionId openPeriod).1,
        ∃ cid text, c = NetCall.message cid text)
    ∧ (strLen question ≤ 255 →
        (sendPoll chatId question options correctOptionId openPeriod).1 = []) := by
  have hsuff : (sendPoll chatId question options correctOptionId openPeriod).1
      = (if 255 < strLen question then
          [NetCall.message chatId (longQuestionMessage question)] else [])
      ∧ ∃ e, (sendPoll chatId question options correctOptionId openPeriod).2
          = .error e := by
    simp only [sendPoll]
    by_cases h1 : (sanitizePollOptions options).length < 2
        ∨ 10 < (sanitizePollOptions options).length
    · rw [if_pos h1]
      exact ⟨rfl, _, rfl⟩
    · have h2 : correctOptionId < 0
          ∨ ((sanitizePollOptions options).length : Int) ≤ correctOptionId := by
        rcases hval with h | h | h | h
        exacts [absurd (Or.inl h) h1, absurd (Or.inr h) h1, Or.inl h, Or.inr h]
      rw [if_neg h1, if_pos h2]
      exact ⟨rfl, _, rfl⟩
  obtain ⟨htr, herr⟩ := hsuff
  refine ⟨herr, ?_, ?_⟩
  · intro c hc
    rw [htr] at hc
    by_cases hq : 255 < strLen question
    · rw [if_pos hq] at hc
      simp only [List.mem_singleton] at hc
      exact ⟨chatId, _, hc⟩
    · rw [if_neg hq] at hc
      simp at hc
  · intro hle
    rw [htr, if_neg (by omega)]

/-- Witness for the amended C5: a short question with a single option
fails with no network call at all. -/
theorem C5_sendPoll_validation_witness :
    (∃ e, (sendPoll "c" "Q" ["A"] 0 20).2 = .error e)
    ∧ (∀ c ∈ (sendPoll "c" "Q" ["A"] 0 20).1,
        ∃ cid text, c = NetCall.message cid text)
    ∧ (strLen "Q" ≤ 255 → (sendPoll "c" "Q" ["A"] 0 20).1 = []) :=
  C5_sendPoll_validation "c" "Q" ["A"] 0 20 (by decide)

/-- C8 (code bug): the long-options supplementary check tests the already
truncated options (`opt.length > 100` after `substring(0, 100)`), so it can
never fire: a poll whose original option is 101 units long (over the
100-unit truncation limit) is dispatched with the truncated option and no
supplementary plain message carrying the full text — the trace is the bare
poll request. -/
theorem C8_long_option_no_message :
    100 < strLen (String.mk (List.replicate 101 'a'))
    ∧ (sendPoll "c" "Savol?" [String.mk (List.replicate 101 'a'), "B"] 0 20).1
      = [NetCall.pollRequest "c" "Savol?"
          [String.mk (List.replicate 100 'a'), "B"] 0 20] := by
  have htrim : trimStr (String.mk (List.replicate 100 'a'))
      = String.mk (List.replicate 100 'a') := by
    show String.mk (((List.replicate 100 'a').dropWhile
        Char.isWhitespace).reverse.dropWhile Char.isWhitespace).reverse = _
    rw [List.dropWhile_replicate]
    simp [List.reverse_replicate, List.dropWhile_replicate]
  have htake : takeStr (String.mk (List.replicate 101 'a')) 100
      = String.mk (List.replicate 100 'a') := by
    show String.mk ((List.replicate 101 'a').take 100) = _
    rw [List.take_replicate]
    norm_num
  have hlen100 : strLen (String.mk (List.replicate 100 'a')) = 100 := by
    show (List.replicate 100 'a').length = 100
    rw [List.length_replicate]
  have hfB : trimStr (takeStr "B" 100) = "B" := by decide
  have hlenB : strLen "B" = 1 := by decide
  have hpos1 : (decide (0 < strLen (String.mk (List.replicate 100 'a')))) = true := by
    rw [hlen100]
    rfl
  have hposB : (decide (0 < strLen ("B" : String))) = true := by
    rw [hlenB]
    rfl
  have hopts : sanitizePollOptions [String.mk (List.replicate 101 'a'), "B"]
      = [String.mk (List.replicate 100 'a'), "B"] := by
    show (([String.mk (List.replicate 101 'a'), "B"].map
        (fun option => trimStr (takeStr option 100))).filter
        (fun option => decide (0 < strLen option))) = _
    rw [List.map_cons, List.map_cons, List.map_nil, htake, htrim, hfB]
    apply List.filter_eq_self.mpr
    intro a ha
    rcases List.mem_cons.mp ha with h | h
    · rw [h]
      exact hpos1
    · rw [List.mem_singleton.mp h]
      exact hposB
  have hql : strLen "Savol?" = 6 := by decide
  have hsq : sanitizePollQuestion "Savol?" = "Savol?" := by decide
  constructor
  · show 100 < (List.replicate 101 'a').length
    rw [List.length_replicate]
    omega
  · simp only [sendPoll, hopts, hql, hsq, hlen100, hlenB]
    norm_num [hlen100, hlenB]

/-! ### Lemmas for `setSessionResults` -/

theorem mapFind_mapSet_isSome {α β : Type} [DecidableEq α]
    (m : List (α × β)) (k u : α) (v : β)
    (h : (mapFind (mapSet m k v) u).isSome) :
    u = k ∨ (mapFind m u).isSome := by
  by_cases hu : u = k
  · exact Or.inl hu
  · rw [mapFind_mapSet_ne _ _ _ _ hu] at h
    exact Or.inr h

/-- Keys of the per-user result loop of `setSessionResults`: every key of
the accumulated map either was already present or is a registered
participant. -/
theorem setResultsLoop_find (participants : List (String × UserInfo))
    (qlen now : Nat) :
    ∀ (entries : ResultsMap) (acc : List (String × UserResult)) (uid : String),
      (mapFind (entries.foldl
        (fun acc kv =>
          match mapFind participants kv.1 with
          | none => acc
          | some userInfo =>
              mapSet acc kv.1 (mkUserResult userInfo kv.2 qlen now)) acc)
        uid).isSome →
      (mapFind acc uid).isSome ∨ (mapFind participants uid).isSome := by
  intro entries
  induction entries with
  | nil => intro acc uid h; exact Or.inl h
  | cons kv rest ih =>
    intro acc uid h
    rw [List.foldl_cons] at h
    cases hp : mapFind participants kv.1 with
    | none =>
      simp only [hp] at h
      exact ih acc uid h
    | some userInfo =>
      simp only [hp] at h
      rcases ih _ uid h with h' | h'
      · rcases mapFind_mapSet_isSome _ _ _ _ h' with he | hacc
        · refine Or.inr ?_
          rw [he, hp]
          rfl
        · exact Or.inl hacc
      · exact Or.inr h'

/-- Values written by the per-user result loop keep the invariant that the
stored `userInfo.userId` equals the map key. -/
theorem setResultsLoop_consistent (participants : List (String × UserInfo))
    (qlen now : Nat)
    (hp : ∀ kv ∈ participants, (kv.2 : UserInfo).userId = kv.1) :
    ∀ (entries : ResultsMap) (acc : List (String × UserResult)),
      (∀ kv ∈ acc, (kv.2 : UserResult).userInfo.userId = kv.1) →
      ∀ kv ∈ (entries.foldl
        (fun acc kv =>
          match mapFind participants kv.1 with
          | none => acc
          | some userInfo =>
              mapSet acc kv.1 (mkUserResult userInfo kv.2 qlen now)) acc),
        (kv.2 : UserResult).userInfo.userId = kv.1 := by
  intro entries
  induction entries with
  | nil => intro acc hacc; exact hacc
  | cons e rest ih =>
    intro acc hacc
    rw [List.foldl_cons]
    cases hpe : mapFind participants e.1 with
    | none =>
      simp only [hpe]
      exact ih acc hacc
    | some ui =>
      simp only [hpe]
      apply ih
      intro kv hkv
      rcases mem_mapSet hkv with he | hm
      · rw [he]
        have hui := hp (e.1, ui) (mem_of_mapFind_eq_some hpe)
        simp only [mkUserResult]
        exact hui
      · exact hacc kv hm

/-- Every key written back by the ranking step satisfies the supplied
predicate on its value's user id. -/
theorem rankWriteback_find (Q : String → Prop) :
    ∀ (ranked : List UserResult) (acc : List (String × UserResult)) (uid : String),
      (∀ r ∈ ranked, Q r.userInfo.userId) →
      (mapFind (ranked.foldl
        (fun acc result => mapSet acc result.userInfo.userId result) acc)
        uid).isSome →
      (mapFind acc uid).isSome ∨ Q uid := by
  intro ranked
  induction ranked with
  | nil => intro acc uid _ h; exact Or.inl h
  | cons r rest ih =>
    intro acc uid hQ h
    rw [List.foldl_cons] at h
    rcases ih _ uid (fun r' hr' => hQ r' (List.mem_cons_of_mem r hr')) h with h' | h'
    · rcases mapFind_mapSet_isSome _ _ _ _ h' with he | hacc
      · exact Or.inr (he ▸ hQ r (List.mem_cons_self r rest))
      · exact Or.inl hacc
    · exact Or.inr h'

/-- Every ranked result's user id is a key of the map whose values were
ranked, provided that map is key-consistent. -/
theorem calculateRankings_userIds (l : List (String × UserResult))
    (hcons : ∀ kv ∈ l, (kv.2 : UserResult).userInfo.userId = kv.1) :
    ∀ r ∈ calculateRankings (l.map Prod.snd),
      (mapFind l r.userInfo.userId).isSome := by
  intro r hr
  obtain ⟨v, hv, he⟩ :=
    mem_assignRanks (List.insertionSort rankOrder (l.map Prod.snd)) 1 r hr
  have hv' : v ∈ l.map Prod.snd :=
    (List.perm_insertionSort rankOrder (l.map Prod.snd)).subset hv
  obtain ⟨kv, hkv, hsnd⟩ := List.mem_map.mp hv'
  have hru : r.userInfo = v.userInfo := by rw [he]
  have hvu : v.userInfo = kv.2.userInfo := by rw [← hsnd]
  rw [hru, hvu, hcons kv hkv]
  cases kv with
  | mk a b => exact mapFind_isSome_of_mem hkv

/-- C10: `setSessionResults` with an unknown session id returns without
error and without changing the manager; with a known session it creates a
result only for registered participants — any user id present in the
session's results afterwards was a registered participant or already had a
result (entries of the supplied map for unregistered users are skipped).
The key-consistency hypotheses state that the session's maps are keyed by
the stored user ids, which is how `addParticipant` builds them. -/
theorem C10_setSessionResults (m : Manager) (sessionId : String)
    (results : ResultsMap) (now : Nat) :
    (mapFind m.sessions sessionId = none →
      setSessionResults m sessionId results now = m)
    ∧ (∀ session, mapFind m.sessions sessionId = some session →
        (∀ kv ∈ session.participants, (kv.2 : UserInfo).userId = kv.1) →
        (∀ kv ∈ session.results, (kv.2 : UserResult).userInfo.userId = kv.1) →
        ∀ uid,
          (mapFind ((mapFind (setSessionResults m sessionId results now).sessions
              sessionId).getD session).results uid).isSome →
          (mapFind session.participants uid).isSome
            ∨ (mapFind session.results uid).isSome) := by
  constructor
  · intro h
    simp only [setSessionResults, h]
  · intro session hs hpc hrc uid hsome
    simp only [setSessionResults, hs] at hsome
    rw [mapFind_mapSet_self] at hsome
    simp only [Option.getD_some] at hsome
    have hloopc := setResultsLoop_consistent session.participants
      session.questions.length now hpc results session.results hrc
    have hranked := calculateRankings_userIds
      (results.foldl
        (fun acc kv =>
          match mapFind session.participants kv.1 with
          | none => acc
          | some userInfo =>
              mapSet acc kv.1
                (mkUserResult userInfo kv.2 session.questions.length now))
        session.results)
      hloopc
    have key : ∀ u, (mapFind (results.foldl
        (fun acc kv =>
          match mapFind session.participants kv.1 with
          | none => acc
          | some userInfo =>
              mapSet acc kv.1
                (mkUserResult userInfo kv.2 session.questions.length now))
        session.results) u).isSome →
        (mapFind session.participants u).isSome
          ∨ (mapFind session.results u).isSome := by
      intro u hu
      rcases setResultsLoop_find session.participants session.questions.length
        now results session.results u hu with ha | hb
      exacts [Or.inr ha, Or.inl hb]
    rcases rankWriteback_find
      (fun u => (mapFind (results.foldl
        (fun acc kv =>
          match mapFind session.participants kv.1 with
          | none => acc
          | some userInfo =>
              mapSet acc kv.1
                (mkUserResult userInfo kv.2 session.questions.length now))
        session.results) u).isSome)
      _ _ uid hranked hsome with h' | h'
    · exact key uid h'
    · exact key uid h'

/-- Witness for C10: an unknown id leaves a one-session manager intact,
and with a known session the registered participant's result key satisfies
the membership disjunction. -/
theorem C10_setSessionResults_witness :
    setSessionResults
      ⟨[("s", ⟨"s", [⟨"q", ["a", "b"], "a", 2⟩],
          [("u", ⟨"u", none, none, none, 0, none, true⟩)], [], true, 0, none⟩)]⟩
      "x" [] 0
      = ⟨[("s", ⟨"s", [⟨"q", ["a", "b"], "a", 2⟩],
          [("u", ⟨"u", none, none, none, 0, none, true⟩)], [], true, 0, none⟩)]⟩
    ∧ ((mapFind [("u", (⟨"u", none, none, none, 0, none, true⟩ : UserInfo))] "u").isSome
        ∨ (mapFind ([] : List (String × UserResult)) "u").isSome) := by
  constructor
  · exact (C10_setSessionResults _ "x" [] 0).1 rfl
  · exact (C10_setSessionResults
      ⟨[("s", ⟨"s", [⟨"q", ["a", "b"], "a", 2⟩],
          [("u", ⟨"u", none, none, none, 0, none, true⟩)], [], true, 0, none⟩)]⟩
      "s" [("u", [(0, true)])] 5000).2
      ⟨"s", [⟨"q", ["a", "b"], "a", 2⟩],
        [("u", ⟨"u", none, none, none, 0, none, true⟩)], [], true, 0, none⟩
      rfl (by decide) (by simp) "u" (by decide)

end Quiz
